import Mathlib

/-!
Shallow embedding of the red-black tree from mrpandey/goalds.

The Go code works on a heap of mutable nodes linked by pointers
(left, right, parent).  We model the heap as a list of node records;
a pointer is an address (index into the list) or nil (none).  All
code that dereferences pointers runs in the Option monad: a nil or
dangling dereference yields none, modelling a Go nil-pointer panic.
Loops take explicit fuel; exhausted fuel also yields none.  Every
pointer read and write is performed at its program point, in source
order.

Two versions of the source exist: src/bst/rb.go (current) and
src/unnamed/part_000 (an earlier revision whose rotations blacken a
promoted root inline and whose Delete is a stub).  Definitions with
suffix P0 come from part_000; unsuffixed ones come from rb.go.
-/

namespace GoRB

inductive Color where
  | black
  | red
deriving DecidableEq, Repr

structure Node (T : Type) where
  left   : Option Nat
  right  : Option Nat
  parent : Option Nat
  clr    : Color
  value  : T
deriving DecidableEq, Repr

structure RBTree (T : Type) where
  heap : List (Node T)
  root : Option Nat
  len  : Int
deriving DecidableEq, Repr

/-- The empty tree returned by NewRBTree. -/
def NewRBTree (T : Type) : RBTree T :=
  { heap := [], root := none, len := 0 }

/-- Len returns the stored length field. -/
def Len (s : RBTree T) : Int := s.len

/-- Dereference a pointer: nil or dangling yields none (models a panic). -/
def getN (s : RBTree T) : Option Nat → Option (Node T)
  | none => none
  | some a => s.heap[a]?

/-- Overwrite the node record stored at an address. -/
def setN (s : RBTree T) (a : Nat) (n : Node T) : RBTree T :=
  { s with heap := s.heap.set a n }

/-- nd.color(): nil pointers are considered black. -/
def colorOf (s : RBTree T) : Option Nat → Color
  | none => Color.black
  | some a =>
    match s.heap[a]? with
    | none => Color.black
    | some n => n.clr

/-- Write the clr field of the node a pointer refers to (panics on nil). -/
def setClr (s : RBTree T) (p : Option Nat) (c : Color) : Option (RBTree T) :=
  match p with
  | none => none
  | some a =>
    Option.bind s.heap[a]? fun n => some (setN s a { n with clr := c })

/-- Write the left field of the node a pointer refers to (panics on nil). -/
def setLeft (s : RBTree T) (p : Option Nat) (x : Option Nat) : Option (RBTree T) :=
  match p with
  | none => none
  | some a =>
    Option.bind s.heap[a]? fun n => some (setN s a { n with left := x })

/-- Write the right field of the node a pointer refers to (panics on nil). -/
def setRight (s : RBTree T) (p : Option Nat) (x : Option Nat) : Option (RBTree T) :=
  match p with
  | none => none
  | some a =>
    Option.bind s.heap[a]? fun n => some (setN s a { n with right := x })

/-- Write the parent field of the node a pointer refers to (panics on nil). -/
def setParent (s : RBTree T) (p : Option Nat) (x : Option Nat) : Option (RBTree T) :=
  match p with
  | none => none
  | some a =>
    Option.bind s.heap[a]? fun n => some (setN s a { n with parent := x })

/-- Loop body of findNode: descend comparing with ==, <. -/
def findLoop [LinearOrder T] (s : RBTree T) (val : T) :
    Nat → Option Nat → Option (Option Nat)
  | 0, _ => none
  | _ + 1, none => some none
  | fuel + 1, some a =>
    Option.bind s.heap[a]? fun n =>
      if n.value = val then some (some a)
      else if n.value < val then findLoop s val fuel n.right
      else findLoop s val fuel n.left

/-- findNode: first node found with the given value, or nil. -/
def findNode [LinearOrder T] (s : RBTree T) (val : T) (fuel : Nat) :
    Option (Option Nat) :=
  findLoop s val fuel s.root

/-- Exists (rb.go): findNode(val) != nil. -/
def Exists [LinearOrder T] (s : RBTree T) (val : T) (fuel : Nat) : Option Bool :=
  (findNode s val fuel).map Option.isSome

/-- getMin: follow the left children of a non-nil node down to the leftmost node. -/
def getMin (s : RBTree T) : Nat → Nat → Option Nat
  | 0, _ => none
  | fuel + 1, a =>
    Option.bind s.heap[a]? fun n =>
      match n.left with
      | none => some a
      | some l => getMin s fuel l

/-- replace (rb.go): rewire the parent of nd to point at sub instead of nd. -/
def replace (s : RBTree T) (nd : Nat) (sub : Option Nat) : Option (RBTree T) :=
  Option.bind s.heap[nd]? fun n =>
    Option.bind
      (match n.parent with
       | none => some { s with root := sub }
       | some pa =>
         Option.bind s.heap[pa]? fun pn =>
           if some nd = pn.left then
             some (setN s pa { pn with left := sub })
           else
             some (setN s pa { pn with right := sub })) fun s1 =>
      match sub with
      | none => some s1
      | some sa =>
        Option.bind s1.heap[sa]? fun sn =>
          some (setN s1 sa { sn with parent := n.parent })

/-- rotateLeft (rb.go): uses replace, never touches any clr field. -/
def rotateLeft (s : RBTree T) (nd : Option Nat) : Option (RBTree T) :=
  match nd with
  | none => some s
  | some a =>
    Option.bind s.heap[a]? fun n =>
      match n.right with
      | none => some s
      | some r =>
        Option.bind (replace s a (some r)) fun s1 =>
        Option.bind (setParent s1 (some a) (some r)) fun s2 =>
        Option.bind s2.heap[r]? fun rn =>
        Option.bind (setRight s2 (some a) rn.left) fun s3 =>
        Option.bind
          (match rn.left with
           | none => some s3
           | some rl => setParent s3 (some rl) (some a)) fun s4 =>
        setLeft s4 (some r) (some a)

/-- rotateRight (rb.go): uses replace, never touches any clr field. -/
def rotateRight (s : RBTree T) (nd : Option Nat) : Option (RBTree T) :=
  match nd with
  | none => some s
  | some a =>
    Option.bind s.heap[a]? fun n =>
      match n.left with
      | none => some s
      | some l =>
        Option.bind (replace s a (some l)) fun s1 =>
        Option.bind (setParent s1 (some a) (some l)) fun s2 =>
        Option.bind s2.heap[l]? fun ln =>
        Option.bind (setLeft s2 (some a) ln.right) fun s3 =>
        Option.bind
          (match ln.right with
           | none => some s3
           | some lr => setParent s3 (some lr) (some a)) fun s4 =>
        setRight s4 (some l) (some a)

/-- rotateLeft (part_000): inlines the parent rewiring and blackens a promoted root. -/
def rotateLeftP0 (s : RBTree T) (nd : Option Nat) : Option (RBTree T) :=
  match nd with
  | none => some s
  | some a =>
    Option.bind s.heap[a]? fun n =>
      match n.right with
      | none => some s
      | some r =>
        Option.bind (setParent s (some r) n.parent) fun s1 =>
        Option.bind
          (match n.parent with
           | none => setClr { s1 with root := some r } (some r) Color.black
           | some pa =>
             Option.bind s1.heap[pa]? fun pn =>
               if some a = pn.left then
                 some (setN s1 pa { pn with left := some r })
               else
                 some (setN s1 pa { pn with right := some r })) fun s2 =>
        Option.bind (setParent s2 (some a) (some r)) fun s3 =>
        Option.bind s3.heap[r]? fun rn =>
        Option.bind (setRight s3 (some a) rn.left) fun s4 =>
        Option.bind
          (match rn.left with
           | none => some s4
           | some rl => setParent s4 (some rl) (some a)) fun s5 =>
        setLeft s5 (some r) (some a)

/-- rotateRight (part_000): inlines the parent rewiring and blackens a promoted root. -/
def rotateRightP0 (s : RBTree T) (nd : Option Nat) : Option (RBTree T) :=
  match nd with
  | none => some s
  | some a =>
    Option.bind s.heap[a]? fun n =>
      match n.left with
      | none => some s
      | some l =>
        Option.bind (setParent s (some l) n.parent) fun s1 =>
        Option.bind
          (match n.parent with
           | none => setClr { s1 with root := some l } (some l) Color.black
           | some pa =>
             Option.bind s1.heap[pa]? fun pn =>
               if some a = pn.left then
                 some (setN s1 pa { pn with left := some l })
               else
                 some (setN s1 pa { pn with right := some l })) fun s2 =>
        Option.bind (setParent s2 (some a) (some l)) fun s3 =>
        Option.bind s3.heap[l]? fun ln =>
        Option.bind (setLeft s3 (some a) ln.right) fun s4 =>
        Option.bind
          (match ln.right with
           | none => some s4
           | some lr => setParent s4 (some lr) (some a)) fun s5 =>
        setRight s5 (some l) (some a)

/-- Loop of fixInsert.  The body is textually identical in rb.go and
part_000; only the rotation primitives differ, so the loop is generic
over them.  Every pointer read happens at its program point. -/
def fixInsertLoop (rotL rotR : RBTree T → Option Nat → Option (RBTree T)) :
    Nat → RBTree T → Option Nat → Option (RBTree T)
  | 0, _, _ => none
  | fuel + 1, s, nd =>
    Option.bind (getN s nd) fun n =>
      if colorOf s n.parent = Color.red then
        Option.bind (getN s n.parent) fun pn =>
        Option.bind (getN s pn.parent) fun ppn =>
        if n.parent = ppn.left then
          (if colorOf s ppn.right = Color.red then
            Option.bind (setClr s ppn.right Color.black) fun s1 =>
            Option.bind (setClr s1 n.parent Color.black) fun s2 =>
            Option.bind (getN s2 n.parent) fun pn2 =>
            Option.bind (setClr s2 pn2.parent Color.red) fun s3 =>
            Option.bind (getN s3 n.parent) fun pn3 =>
            fixInsertLoop rotL rotR fuel s3 pn3.parent
          else
            Option.bind
              (if nd = pn.right then
                Option.bind (rotL s n.parent) fun sr => some (sr, n.parent)
              else some (s, nd)) fun step =>
            Option.bind (getN step.1 step.2) fun n4 =>
            Option.bind (setClr step.1 n4.parent Color.black) fun s5 =>
            Option.bind (getN s5 step.2) fun n5 =>
            Option.bind (getN s5 n5.parent) fun p5n =>
            Option.bind (setClr s5 p5n.parent Color.red) fun s6 =>
            Option.bind (getN s6 step.2) fun n6 =>
            Option.bind (getN s6 n6.parent) fun p6n =>
            Option.bind (rotR s6 p6n.parent) fun s7 =>
            fixInsertLoop rotL rotR fuel s7 step.2)
        else
          (if colorOf s ppn.left = Color.red then
            Option.bind (setClr s ppn.left Color.black) fun s1 =>
            Option.bind (setClr s1 n.parent Color.black) fun s2 =>
            Option.bind (getN s2 n.parent) fun pn2 =>
            Option.bind (setClr s2 pn2.parent Color.red) fun s3 =>
            Option.bind (getN s3 n.parent) fun pn3 =>
            fixInsertLoop rotL rotR fuel s3 pn3.parent
          else
            Option.bind
              (if nd = pn.left then
                Option.bind (rotR s n.parent) fun sr => some (sr, n.parent)
              else some (s, nd)) fun step =>
            Option.bind (getN step.1 step.2) fun n4 =>
            Option.bind (setClr step.1 n4.parent Color.black) fun s5 =>
            Option.bind (getN s5 step.2) fun n5 =>
            Option.bind (getN s5 n5.parent) fun p5n =>
            Option.bind (setClr s5 p5n.parent Color.red) fun s6 =>
            Option.bind (getN s6 step.2) fun n6 =>
            Option.bind (getN s6 n6.parent) fun p6n =>
            Option.bind (rotL s6 p6n.parent) fun s7 =>
            fixInsertLoop rotL rotR fuel s7 step.2)
      else some s

/-- fixInsert, generic over the rotation primitives: early return unless
the node is red, run the loop, then blacken the root (a nil root panics). -/
def fixInsertG (rotL rotR : RBTree T → Option Nat → Option (RBTree T))
    (s : RBTree T) (nd : Option Nat) (fuel : Nat) : Option (RBTree T) :=
  if colorOf s nd ≠ Color.red then some s
  else
    Option.bind (fixInsertLoop rotL rotR fuel s nd) fun s1 =>
      setClr s1 s1.root Color.black

/-- fixInsert of rb.go. -/
def fixInsert (s : RBTree T) (nd : Option Nat) (fuel : Nat) : Option (RBTree T) :=
  fixInsertG rotateLeft rotateRight s nd fuel

/-- fixInsert of part_000. -/
def fixInsertP0 (s : RBTree T) (nd : Option Nat) (fuel : Nat) : Option (RBTree T) :=
  fixInsertG rotateLeftP0 rotateRightP0 s nd fuel

/-- Descent loop of Insert: returns the prospective parent pointer. -/
def insertDescend [LinearOrder T] (s : RBTree T) (val : T) :
    Nat → Option Nat → Option Nat → Option (Option Nat)
  | 0, _, _ => none
  | _ + 1, none, p => some p
  | fuel + 1, some a, _ =>
    Option.bind s.heap[a]? fun n =>
      if val ≤ n.value then insertDescend s val fuel n.left (some a)
      else insertDescend s val fuel n.right (some a)

/-- Insert, generic over which fixInsert runs (rb.go and part_000 share the
rest of the text verbatim).  A new node is allocated at the end of the heap. -/
def InsertG [LinearOrder T] (fix : RBTree T → Option Nat → Nat → Option (RBTree T))
    (s : RBTree T) (val : T) (fuel : Nat) : Option (RBTree T) :=
  Option.bind (insertDescend s val fuel s.root none) fun p =>
    match p with
    | none =>
      some { heap := s.heap ++ [⟨none, none, none, Color.black, val⟩],
             root := some s.heap.length, len := s.len + 1 }
    | some pa =>
      let a := s.heap.length
      let s1 : RBTree T :=
        { s with heap := s.heap ++ [⟨none, none, some pa, Color.red, val⟩],
                 len := s.len + 1 }
      Option.bind s1.heap[pa]? fun pn =>
        fix
          (if val ≤ pn.value then setN s1 pa { pn with left := some a }
           else setN s1 pa { pn with right := some a })
          (some a) fuel

/-- Insert of rb.go. -/
def Insert [LinearOrder T] (s : RBTree T) (val : T) (fuel : Nat) : Option (RBTree T) :=
  InsertG fixInsert s val fuel

/-- Insert of part_000. -/
def InsertP0 [LinearOrder T] (s : RBTree T) (val : T) (fuel : Nat) : Option (RBTree T) :=
  InsertG fixInsertP0 s val fuel

/-- Loop of fixDelete, translated with every pointer read at its program
point, including the nil-sibling dereference the source comments call out
and the rotateRight call in the mirrored inner case exactly as written. -/
def fixDeleteLoop : Nat → RBTree T → Option Nat → Option (RBTree T)
  | 0, _, _ => none
  | fuel + 1, s, nd =>
    if nd = s.root then some s
    else if colorOf s nd ≠ Color.black then some s
    else
      Option.bind (getN s nd) fun ndn =>
      Option.bind (getN s ndn.parent) fun pn =>
      if nd = pn.left then
        Option.bind
          (if colorOf s pn.right = Color.red then
            Option.bind (setClr s pn.right Color.black) fun sA =>
            Option.bind (getN sA nd) fun nA =>
            Option.bind (setClr sA nA.parent Color.red) fun sB =>
            Option.bind (getN sB nd) fun nB =>
            Option.bind (rotateLeft sB nB.parent) fun sC =>
            Option.bind (getN sC nd) fun nC =>
            Option.bind (getN sC nC.parent) fun pC =>
            some (sC, pC.right)
          else some (s, pn.right)) fun step =>
        Option.bind (getN step.1 step.2) fun sn =>
        if colorOf step.1 sn.left = Color.black ∧ colorOf step.1 sn.right = Color.black then
          Option.bind (setClr step.1 step.2 Color.red) fun s2 =>
          Option.bind (getN s2 nd) fun n2 =>
          fixDeleteLoop fuel s2 n2.parent
        else
          Option.bind
            (if colorOf step.1 sn.right = Color.black then
              Option.bind (setClr step.1 sn.left Color.black) fun sD =>
              Option.bind (setClr sD step.2 Color.red) fun sE =>
              Option.bind (rotateRight sE step.2) fun sF =>
              Option.bind (getN sF nd) fun nF =>
              Option.bind (getN sF nF.parent) fun pF =>
              some (sF, pF.right)
            else some (step.1, step.2)) fun step2 =>
          Option.bind (getN step2.1 nd) fun n3 =>
          Option.bind (getN step2.1 n3.parent) fun pn3 =>
          Option.bind (setClr step2.1 step2.2 pn3.clr) fun s4 =>
          Option.bind (getN s4 nd) fun n4 =>
          Option.bind (setClr s4 n4.parent Color.black) fun s5 =>
          Option.bind (getN s5 step2.2) fun sn5 =>
          Option.bind (setClr s5 sn5.right Color.black) fun s6 =>
          Option.bind (getN s6 nd) fun n6 =>
          Option.bind (rotateLeft s6 n6.parent) fun s7 =>
          fixDeleteLoop fuel s7 s7.root
      else
        Option.bind
          (if colorOf s pn.left = Color.red then
            Option.bind (setClr s pn.left Color.black) fun sA =>
            Option.bind (getN sA nd) fun nA =>
            Option.bind (setClr sA nA.parent Color.red) fun sB =>
            Option.bind (getN sB nd) fun nB =>
            Option.bind (rotateRight sB nB.parent) fun sC =>
            Option.bind (getN sC nd) fun nC =>
            Option.bind (getN sC nC.parent) fun pC =>
            some (sC, pC.left)
          else some (s, pn.left)) fun step =>
        Option.bind (getN step.1 step.2) fun sn =>
        if colorOf step.1 sn.left = Color.black ∧ colorOf step.1 sn.right = Color.black then
          Option.bind (setClr step.1 step.2 Color.red) fun s2 =>
          Option.bind (getN s2 nd) fun n2 =>
          fixDeleteLoop fuel s2 n2.parent
        else
          Option.bind
            (if colorOf step.1 sn.left = Color.black then
              Option.bind (setClr step.1 sn.right Color.black) fun sD =>
              Option.bind (setClr sD step.2 Color.red) fun sE =>
              Option.bind (rotateRight sE step.2) fun sF =>
              Option.bind (getN sF nd) fun nF =>
              Option.bind (getN sF nF.parent) fun pF =>
              some (sF, pF.left)
            else some (step.1, step.2)) fun step2 =>
          Option.bind (getN step2.1 nd) fun n3 =>
          Option.bind (getN step2.1 n3.parent) fun pn3 =>
          Option.bind (setClr step2.1 step2.2 pn3.clr) fun s4 =>
          Option.bind (getN s4 nd) fun n4 =>
          Option.bind (setClr s4 n4.parent Color.black) fun s5 =>
          Option.bind (getN s5 step2.2) fun sn5 =>
          Option.bind (setClr s5 sn5.left Color.black) fun s6 =>
          Option.bind (getN s6 nd) fun n6 =>
          Option.bind (rotateRight s6 n6.parent) fun s7 =>
          fixDeleteLoop fuel s7 s7.root

/-- fixDelete of rb.go: the loop, then rb.root.clr = black (a nil root panics). -/
def fixDelete (s : RBTree T) (nd : Option Nat) (fuel : Nat) : Option (RBTree T) :=
  Option.bind (fixDeleteLoop fuel s nd) fun s1 =>
    setClr s1 s1.root Color.black

/-- The splice phase of Delete (everything between reading ogColor and the
final fixDelete decision), returning ogColor, the node to fix, and the
resulting state. -/
def deleteSplice (s : RBTree T) (nd : Nat) (fuel : Nat) :
    Option (Color × Option Nat × RBTree T) :=
  Option.bind s.heap[nd]? fun n =>
    if n.left = none then
      Option.bind (replace s nd n.right) fun s1 =>
      some (n.clr, n.right, s1)
    else if n.right = none then
      Option.bind (replace s nd n.left) fun s1 =>
      some (n.clr, n.left, s1)
    else
      Option.bind n.right fun ndr =>
      Option.bind (getMin s fuel ndr) fun sub =>
      Option.bind s.heap[sub]? fun subn =>
      Option.bind
        (if subn.parent ≠ some nd then
          Option.bind (replace s sub subn.right) fun s1 =>
          Option.bind s1.heap[nd]? fun n1 =>
          Option.bind (setRight s1 (some sub) n1.right) fun sa =>
          Option.bind sa.heap[sub]? fun sn2 =>
          setParent sa sn2.right (some sub)
        else some s) fun s2 =>
      Option.bind (replace s2 nd (some sub)) fun s3 =>
      Option.bind s3.heap[nd]? fun n3 =>
      Option.bind (setLeft s3 (some sub) n3.left) fun s4 =>
      Option.bind s4.heap[sub]? fun sn4 =>
      Option.bind
        (match sn4.left with
         | none => some s4
         | some l => setParent s4 (some l) (some sub)) fun s5 =>
      Option.bind s5.heap[nd]? fun n5 =>
      Option.bind (setClr s5 (some sub) n5.clr) fun s6 =>
      some (subn.clr, subn.right, s6)

/-- Result of Delete: nil error (ok) or ErrValueDoesNotExist. -/
inductive DelResult where
  | ok
  | errValueDoesNotExist
deriving DecidableEq, Repr

/-- Delete of rb.go: find, decrement len, splice, then fixDelete if the
color removed from its original position was black. -/
def Delete [LinearOrder T] (s : RBTree T) (val : T) (fuel : Nat) :
    Option (DelResult × RBTree T) :=
  Option.bind (findNode s val fuel) fun ndO =>
    match ndO with
    | none => some (DelResult.errValueDoesNotExist, s)
    | some nd =>
      let s0 : RBTree T := { s with len := s.len - 1 }
      Option.bind (deleteSplice s0 nd fuel) fun spl =>
        if spl.1 = Color.black then
          Option.bind (fixDelete spl.2.2 spl.2.1 fuel) fun s2 =>
          some (DelResult.ok, s2)
        else some (DelResult.ok, spl.2.2)

/-- Predecessor-finding inner loop of the Morris traversal. -/
def morrisPre (s : RBTree T) : Nat → Nat → Nat → Option Nat
  | 0, _, _ => none
  | fuel + 1, pre, a =>
    Option.bind s.heap[pre]? fun pn =>
      match pn.right with
      | none => some pre
      | some r => if r = a then some pre else morrisPre s fuel r a

/-- values[i] = v with the Go bounds check: out of range panics. -/
def writeAt (vals : List T) (i : Nat) (v : T) : Option (List T) :=
  if i < vals.length then some (vals.set i v) else none

/-- Outer loop of the Morris traversal of GetValues, returning the filled
slice and the final state of the tree (child links are mutated and
restored along the way). -/
def morrisLoop : Nat → RBTree T → Option Nat → List T → Nat →
    Option (List T × RBTree T)
  | 0, _, _, _, _ => none
  | fuel + 1, s, nd, vals, i =>
    match nd with
    | none => some (vals, s)
    | some a =>
      Option.bind s.heap[a]? fun n =>
        match n.left with
        | none =>
          Option.bind (writeAt vals i n.value) fun vals1 =>
          morrisLoop fuel s n.right vals1 (i + 1)
        | some l =>
          Option.bind (morrisPre s fuel l a) fun pre =>
          Option.bind s.heap[pre]? fun pn =>
            match pn.right with
            | none =>
              let s1 := setN s pre { pn with right := some a }
              Option.bind s1.heap[a]? fun n1 =>
              morrisLoop fuel s1 n1.left vals i
            | some _ =>
              Option.bind (writeAt vals i n.value) fun vals1 =>
              let s1 := setN s pre { pn with right := none }
              morrisLoop fuel s1 n.right vals1 (i + 1)

/-- GetValues of rb.go: allocate a slice of length Len() (Go make panics on
a negative length and zero-fills otherwise), then Morris-traverse. -/
def GetValues [Inhabited T] (s : RBTree T) (fuel : Nat) :
    Option (List T × RBTree T) :=
  if s.len < 0 then none
  else morrisLoop fuel s s.root (List.replicate s.len.toNat default) 0

/-- Fold a list of values through Insert (rb.go). -/
def insertSeq [LinearOrder T] (s : RBTree T) (vs : List T) (fuel : Nat) :
    Option (RBTree T) :=
  vs.foldlM (fun st v => Insert st v fuel) s

/-- Fold a list of values through Insert (part_000). -/
def insertSeqP0 [LinearOrder T] (s : RBTree T) (vs : List T) (fuel : Nat) :
    Option (RBTree T) :=
  vs.foldlM (fun st v => InsertP0 st v fuel) s

/-- The color stored at an address, if the address is allocated. -/
def clrAt (s : RBTree T) (a : Nat) : Option Color :=
  (s.heap[a]?).map Node.clr

/-- Black-height check: some h when every path from this pointer to a nil
position passes the same number of black nodes (counting the nil position
as one); none when heights mismatch, a node dangles, or fuel runs out. -/
def bhChk (s : RBTree T) : Nat → Option Nat → Option Nat
  | 0, _ => none
  | _ + 1, none => some 1
  | fuel + 1, some a =>
    match s.heap[a]? with
    | none => none
    | some n =>
      Option.bind (bhChk s fuel n.left) fun hl =>
      Option.bind (bhChk s fuel n.right) fun hr =>
      if hl = hr then
        some (if n.clr = Color.black then hl + 1 else hl)
      else none

/-- No red node has a red child (absent children count as black). -/
def noRedRed (s : RBTree T) : Nat → Option Nat → Bool
  | 0, _ => false
  | _ + 1, none => true
  | fuel + 1, some a =>
    match s.heap[a]? with
    | none => false
    | some n =>
      decide (n.clr = Color.red →
        colorOf s n.left = Color.black ∧ colorOf s n.right = Color.black)
        && noRedRed s fuel n.left && noRedRed s fuel n.right

/-- The five red-black invariants of the source header comment: colors are
the only node tags (by construction), the root is black (nil roots count
as black), nil positions count as black, no red-red edge, and equal
black-height on all paths. -/
def validRB (s : RBTree T) (fuel : Nat) : Bool :=
  decide (colorOf s s.root = Color.black)
    && noRedRed s fuel s.root && (bhChk s fuel s.root).isSome

/-- Claim C1.  The claim states that for every tree satisfying the five
red-black invariants and every value present in it, delete runs to
completion, with delete-fixup accepting a nil node-to-fix without any nil
dereference.  The code contradicts this: evaluating the code on the valid
four-node tree built by inserting 1, 2, 3, 4 (root 2 black, children 1
and 3 black, 4 red), where 1 is present, Delete(1) splices out the black
leaf 1, passes a nil node-to-fix to fixDelete, and the loop body then
dereferences the nil node (nd.parent) and panics, modelled here as none. -/
theorem claim1_delete_fixup_crashes_on_nil_node_to_fix :
    ((insertSeq (NewRBTree Int) [1, 2, 3, 4] 20).map
        (fun s => (validRB s 20, Exists s 1 20)) = some (true, some true))
    ∧ ((insertSeq (NewRBTree Int) [1, 2, 3, 4] 20).bind
        (fun s => Delete s 1 20) = none) := by
  decide

/-- Claim C2.  The claim states that after each public mutating operation
the five red-black invariants hold.  The code contradicts this: the four
inserts 1, 2, 3, 4 leave a valid tree, but Delete(3) then completes with
success and leaves a tree violating the equal-black-height invariant
(root 2 black, left child 1 black, right child 4 red), because fixDelete
ends by blackening the root instead of the node it was called on, leaving
the red node 4 as the sole compensation for the removed black node 3. -/
theorem claim2_delete_leaves_black_height_violation :
    ((insertSeq (NewRBTree Int) [1, 2, 3, 4] 20).map
        (fun s => validRB s 20) = some true)
    ∧ (((insertSeq (NewRBTree Int) [1, 2, 3, 4] 20).bind
        (fun s => Delete s 3 20)).map
        (fun r => (r.1, validRB r.2 20)) = some (DelResult.ok, false)) := by
  decide

/-- Claim C3.  The claim states that deleting a present value returns
success and decreases size by one.  The code contradicts this: on the
valid single-node tree built by inserting 1, the value 1 is present, yet
Delete(1) panics (modelled as none) instead of returning success: the
tree becomes empty, and the final unconditional rb.root.clr = black in
fixDelete dereferences the nil root. -/
theorem claim3_delete_present_value_panics :
    ((insertSeq (NewRBTree Int) [1] 20).map
        (fun s => (validRB s 20, Exists s 1 20)) = some (true, some true))
    ∧ ((insertSeq (NewRBTree Int) [1] 20).bind
        (fun s => Delete s 1 20) = none) := by
  decide

/-- Claim C5, counterexample.  The claim states that every rotate-left or
rotate-right call that promotes a child to the root of the tree colors
the new root black.  For the rb.go rotations this is false: on the
reachable two-node tree built by inserting 1 then 2 (root 1 black with
red right child 2 at address 1), rotateLeft at the root promotes node 2
to the root and leaves it red. -/
theorem claim5_counterexample_rb_rotation_keeps_red_root :
    ((insertSeq (NewRBTree Int) [1, 2] 20).bind
        (fun s => rotateLeft s s.root)).map
        (fun s => (s.root, colorOf s s.root)) = some (some 1, Color.red) := by
  decide

/-- Writing a record with an unchanged clr field preserves every stored color. -/
theorem clrAt_setN {T : Type} {s : RBTree T} {a : Nat} {n : Node T} {n2 : Node T}
    (h : s.heap[a]? = some n) (hc : n2.clr = n.clr) (b : Nat) :
    clrAt (setN s a n2) b = clrAt s b := by
  unfold clrAt setN
  by_cases hab : a = b
  · subst hab
    simp only [List.getElem?_set_self', h, Option.map_map]
    simp [hc]
  · simp [List.getElem?_set_ne hab]

theorem clrAt_setLeft {T : Type} {s s2 : RBTree T} {p x : Option Nat}
    (h : setLeft s p x = some s2) (b : Nat) : clrAt s2 b = clrAt s b := by
  cases p with
  | none => simp [setLeft] at h
  | some a =>
    simp only [setLeft, Option.bind_eq_some, Option.some_inj] at h
    obtain ⟨n, hn, h⟩ := h
    rw [← h]
    exact clrAt_setN hn (by rfl) b

theorem clrAt_setRight {T : Type} {s s2 : RBTree T} {p x : Option Nat}
    (h : setRight s p x = some s2) (b : Nat) : clrAt s2 b = clrAt s b := by
  cases p with
  | none => simp [setRight] at h
  | some a =>
    simp only [setRight, Option.bind_eq_some, Option.some_inj] at h
    obtain ⟨n, hn, h⟩ := h
    rw [← h]
    exact clrAt_setN hn (by rfl) b

theorem clrAt_setParent {T : Type} {s s2 : RBTree T} {p x : Option Nat}
    (h : setParent s p x = some s2) (b : Nat) : clrAt s2 b = clrAt s b := by
  cases p with
  | none => simp [setParent] at h
  | some a =>
    simp only [setParent, Option.bind_eq_some, Option.some_inj] at h
    obtain ⟨n, hn, h⟩ := h
    rw [← h]
    exact clrAt_setN hn (by rfl) b

theorem clrAt_replace {T : Type} {s s2 : RBTree T} {nd : Nat} {sub : Option Nat}
    (h : replace s nd sub = some s2) (b : Nat) : clrAt s2 b = clrAt s b := by
  unfold replace at h
  simp only [Option.bind_eq_some] at h
  obtain ⟨n, hn, s1, h1, h2⟩ := h
  have e1 : clrAt s1 b = clrAt s b := by
    split at h1
    · obtain rfl := Option.some_inj.mp h1
      rfl
    · simp only [Option.bind_eq_some] at h1
      obtain ⟨pn, hpn, h1⟩ := h1
      split at h1 <;>
        · obtain rfl := Option.some_inj.mp h1
          exact clrAt_setN hpn (by rfl) b
  have e2 : clrAt s2 b = clrAt s1 b := by
    split at h2
    · obtain rfl := Option.some_inj.mp h2
      rfl
    · simp only [Option.bind_eq_some] at h2
      obtain ⟨sn, hsn, h2⟩ := h2
      obtain rfl := Option.some_inj.mp h2
      exact clrAt_setN hsn (by rfl) b
  rw [e2, e1]

/-- The rb.go rotateLeft never changes any stored color. -/
theorem clrAt_rotateLeft {T : Type} {s s2 : RBTree T} {nd : Option Nat}
    (h : rotateLeft s nd = some s2) (b : Nat) : clrAt s2 b = clrAt s b := by
  unfold rotateLeft at h
  cases nd with
  | none =>
    obtain rfl := Option.some_inj.mp h
    rfl
  | some a =>
    simp only [Option.bind_eq_some] at h
    obtain ⟨n, hn, h⟩ := h
    split at h
    · obtain rfl := Option.some_inj.mp h
      rfl
    · simp only [Option.bind_eq_some] at h
      obtain ⟨s1, h1, sx2, h2, rn, hrn, s3, h3, s4, h4, h5⟩ := h
      have e4 : clrAt s4 b = clrAt s3 b := by
        split at h4
        · obtain rfl := Option.some_inj.mp h4
          rfl
        · exact clrAt_setParent h4 b
      rw [clrAt_setLeft h5 b, e4, clrAt_setRight h3 b, clrAt_setParent h2 b,
        clrAt_replace h1 b]

/-- The rb.go rotateRight never changes any stored color. -/
theorem clrAt_rotateRight {T : Type} {s s2 : RBTree T} {nd : Option Nat}
    (h : rotateRight s nd = some s2) (b : Nat) : clrAt s2 b = clrAt s b := by
  unfold rotateRight at h
  cases nd with
  | none =>
    obtain rfl := Option.some_inj.mp h
    rfl
  | some a =>
    simp only [Option.bind_eq_some] at h
    obtain ⟨n, hn, h⟩ := h
    split at h
    · obtain rfl := Option.some_inj.mp h
      rfl
    · simp only [Option.bind_eq_some] at h
      obtain ⟨s1, h1, sx2, h2, ln, hln, s3, h3, s4, h4, h5⟩ := h
      have e4 : clrAt s4 b = clrAt s3 b := by
        split at h4
        · obtain rfl := Option.some_inj.mp h4
          rfl
        · exact clrAt_setParent h4 b
      rw [clrAt_setRight h5 b, e4, clrAt_setLeft h3 b, clrAt_setParent h2 b,
        clrAt_replace h1 b]

/-- The root field is untouched by setLeft. -/
theorem root_setLeft {T : Type} {s s2 : RBTree T} {p x : Option Nat}
    (h : setLeft s p x = some s2) : s2.root = s.root := by
  cases p with
  | none => simp [setLeft] at h
  | some a =>
    simp only [setLeft, Option.bind_eq_some] at h
    obtain ⟨n, _, h⟩ := h
    obtain rfl := Option.some_inj.mp h
    rfl

/-- The root field is untouched by setRight. -/
theorem root_setRight {T : Type} {s s2 : RBTree T} {p x : Option Nat}
    (h : setRight s p x = some s2) : s2.root = s.root := by
  cases p with
  | none => simp [setRight] at h
  | some a =>
    simp only [setRight, Option.bind_eq_some] at h
    obtain ⟨n, _, h⟩ := h
    obtain rfl := Option.some_inj.mp h
    rfl

/-- The root field is untouched by setParent. -/
theorem root_setParent {T : Type} {s s2 : RBTree T} {p x : Option Nat}
    (h : setParent s p x = some s2) : s2.root = s.root := by
  cases p with
  | none => simp [setParent] at h
  | some a =>
    simp only [setParent, Option.bind_eq_some] at h
    obtain ⟨n, _, h⟩ := h
    obtain rfl := Option.some_inj.mp h
    rfl

/-- The root field is untouched by setClr. -/
theorem root_setClr {T : Type} {s s2 : RBTree T} {p : Option Nat} {c : Color}
    (h : setClr s p c = some s2) : s2.root = s.root := by
  cases p with
  | none => simp [setClr] at h
  | some a =>
    simp only [setClr, Option.bind_eq_some] at h
    obtain ⟨n, _, h⟩ := h
    obtain rfl := Option.some_inj.mp h
    rfl

/-- setClr writes exactly the requested color at the requested address. -/
theorem clrAt_setClr_self {T : Type} {s s2 : RBTree T} {a : Nat} {c : Color}
    (h : setClr s (some a) c = some s2) : clrAt s2 a = some c := by
  simp only [setClr, Option.bind_eq_some] at h
  obtain ⟨n, hn, h⟩ := h
  obtain rfl := Option.some_inj.mp h
  unfold clrAt setN
  have hlen : a < s.heap.length := by
    by_contra hcon
    rw [List.getElem?_eq_none (Nat.le_of_not_lt hcon)] at hn
    exact Option.noConfusion hn
  simp [List.getElem?_set_self hlen]

/-- colorOf agrees with clrAt on allocated addresses. -/
theorem colorOf_of_clrAt {T : Type} {s : RBTree T} {a : Nat} {c : Color}
    (h : clrAt s a = some c) : colorOf s (some a) = c := by
  unfold clrAt at h
  cases hn : s.heap[a]? with
  | none => rw [hn] at h; exact Option.noConfusion h
  | some n =>
    rw [hn] at h
    have hc : n.clr = c := by simpa using h
    simp [colorOf, hn, hc]

/-- part_000 rotateLeft at a parentless node with a present right child
promotes that child to the root and colors it black. -/
theorem rotateLeftP0_root_black {T : Type} {s s2 : RBTree T} {a r : Nat} {n : Node T}
    (hn : s.heap[a]? = some n) (hp : n.parent = none) (hr : n.right = some r)
    (h : rotateLeftP0 s (some a) = some s2) :
    s2.root = some r ∧ colorOf s2 s2.root = Color.black := by
  simp only [rotateLeftP0] at h
  rw [hn] at h
  simp only [Option.some_bind] at h
  simp only [hr, hp] at h
  simp only [Option.bind_eq_some] at h
  obtain ⟨s1, h1, sx2, h2, s3, h3, rn, hrn, s4, h4, s5, h5, h6⟩ := h
  have hroot2 : sx2.root = some r := by
    rw [root_setClr h2]
  have hclr2 : clrAt sx2 r = some Color.black := clrAt_setClr_self h2
  have e3 : clrAt s3 r = some Color.black := by rw [clrAt_setParent h3 r]; exact hclr2
  have e4 : clrAt s4 r = some Color.black := by rw [clrAt_setRight h4 r]; exact e3
  have e5 : clrAt s5 r = some Color.black := by
    have e : clrAt s5 r = clrAt s4 r := by
      split at h5
      · obtain rfl := Option.some_inj.mp h5
        rfl
      · exact clrAt_setParent h5 r
    rw [e]; exact e4
  have e6 : clrAt s2 r = some Color.black := by rw [clrAt_setLeft h6 r]; exact e5
  have hroot6 : s2.root = some r := by
    rw [root_setLeft h6]
    have r5 : s5.root = s4.root := by
      split at h5
      · obtain rfl := Option.some_inj.mp h5
        rfl
      · exact root_setParent h5
    rw [r5, root_setRight h4, root_setParent h3, hroot2]
  refine ⟨hroot6, ?_⟩
  rw [hroot6]
  exact colorOf_of_clrAt e6

/-- part_000 rotateRight at a parentless node with a present left child
promotes that child to the root and colors it black. -/
theorem rotateRightP0_root_black {T : Type} {s s2 : RBTree T} {a l : Nat} {n : Node T}
    (hn : s.heap[a]? = some n) (hp : n.parent = none) (hl : n.left = some l)
    (h : rotateRightP0 s (some a) = some s2) :
    s2.root = some l ∧ colorOf s2 s2.root = Color.black := by
  simp only [rotateRightP0] at h
  rw [hn] at h
  simp only [Option.some_bind] at h
  simp only [hl, hp] at h
  simp only [Option.bind_eq_some] at h
  obtain ⟨s1, h1, sx2, h2, s3, h3, ln, hln, s4, h4, s5, h5, h6⟩ := h
  have hroot2 : sx2.root = some l := by
    rw [root_setClr h2]
  have hclr2 : clrAt sx2 l = some Color.black := clrAt_setClr_self h2
  have e3 : clrAt s3 l = some Color.black := by rw [clrAt_setParent h3 l]; exact hclr2
  have e4 : clrAt s4 l = some Color.black := by rw [clrAt_setLeft h4 l]; exact e3
  have e5 : clrAt s5 l = some Color.black := by
    have e : clrAt s5 l = clrAt s4 l := by
      split at h5
      · obtain rfl := Option.some_inj.mp h5
        rfl
      · exact clrAt_setParent h5 l
    rw [e]; exact e4
  have e6 : clrAt s2 l = some Color.black := by rw [clrAt_setRight h6 l]; exact e5
  have hroot6 : s2.root = some l := by
    rw [root_setRight h6]
    have r5 : s5.root = s4.root := by
      split at h5
      · obtain rfl := Option.some_inj.mp h5
        rfl
      · exact root_setParent h5
    rw [r5, root_setLeft h4, root_setParent h3, hroot2]
  refine ⟨hroot6, ?_⟩
  rw [hroot6]
  exact colorOf_of_clrAt e6

/-- Claim C5, amended.  As stated the claim fails for the rb.go rotations
(see the counterexample theorem).  What holds is: the part_000 rotations
force a child promoted to the root to be black, while the rb.go rotations
never modify any stored color at all (root blackening is instead performed
by the final step of the fixup routines). -/
theorem claim5_amended_rotation_root_coloring (T : Type) :
    (∀ (s s2 : RBTree T) (nd : Option Nat), rotateLeft s nd = some s2 →
      ∀ b, clrAt s2 b = clrAt s b)
    ∧ (∀ (s s2 : RBTree T) (nd : Option Nat), rotateRight s nd = some s2 →
      ∀ b, clrAt s2 b = clrAt s b)
    ∧ (∀ (s s2 : RBTree T) (a r : Nat) (n : Node T), s.heap[a]? = some n →
      n.parent = none → n.right = some r → rotateLeftP0 s (some a) = some s2 →
      s2.root = some r ∧ colorOf s2 s2.root = Color.black)
    ∧ (∀ (s s2 : RBTree T) (a l : Nat) (n : Node T), s.heap[a]? = some n →
      n.parent = none → n.left = some l → rotateRightP0 s (some a) = some s2 →
      s2.root = some l ∧ colorOf s2 s2.root = Color.black) :=
  ⟨fun _ _ _ h b => clrAt_rotateLeft h b,
   fun _ _ _ h b => clrAt_rotateRight h b,
   fun _ _ _ _ _ hn hp hr h => rotateLeftP0_root_black hn hp hr h,
   fun _ _ _ _ _ hn hp hl h => rotateRightP0_root_black hn hp hl h⟩

/-- Witness for the amended claim C5, applying it on a concrete two-node
tree (black root, red right child) and its rotations. -/
theorem claim5_amended_rotation_root_coloring_witness :
    (clrAt (⟨[⟨none, none, some 1, Color.black, 1⟩, ⟨some 0, none, none, Color.red, 2⟩],
        some 1, 2⟩ : RBTree Int) 1
      = clrAt (⟨[⟨none, some 1, none, Color.black, 1⟩, ⟨none, none, some 0, Color.red, 2⟩],
        some 0, 2⟩ : RBTree Int) 1)
    ∧ ((⟨[⟨none, none, some 1, Color.black, 1⟩, ⟨some 0, none, none, Color.black, 2⟩],
        some 1, 2⟩ : RBTree Int).root = some 1
      ∧ colorOf (⟨[⟨none, none, some 1, Color.black, 1⟩, ⟨some 0, none, none, Color.black, 2⟩],
        some 1, 2⟩ : RBTree Int)
        (⟨[⟨none, none, some 1, Color.black, 1⟩, ⟨some 0, none, none, Color.black, 2⟩],
          some 1, 2⟩ : RBTree Int).root = Color.black) :=
  ⟨(claim5_amended_rotation_root_coloring Int).1
      (⟨[⟨none, some 1, none, Color.black, 1⟩, ⟨none, none, some 0, Color.red, 2⟩],
        some 0, 2⟩ : RBTree Int)
      (⟨[⟨none, none, some 1, Color.black, 1⟩, ⟨some 0, none, none, Color.red, 2⟩],
        some 1, 2⟩ : RBTree Int)
      (some 0) (by decide) 1,
   (claim5_amended_rotation_root_coloring Int).2.2.1
      (⟨[⟨none, some 1, none, Color.black, 1⟩, ⟨none, none, some 0, Color.red, 2⟩],
        some 0, 2⟩ : RBTree Int)
      (⟨[⟨none, none, some 1, Color.black, 1⟩, ⟨some 0, none, none, Color.black, 2⟩],
        some 1, 2⟩ : RBTree Int)
      0 1 ⟨none, some 1, none, Color.black, 1⟩ (by decide) (by decide) (by decide) (by decide)⟩

/-- Claim C8: deleting an absent value returns the NotFound error and
returns with the tree state unchanged, so size() and values() afterwards
coincide with their values before the call. -/
theorem claim8_delete_absent_notfound_unchanged {T : Type} [LinearOrder T]
    (s : RBTree T) (v : T) (fuel : Nat)
    (h : Exists s v fuel = some false) :
    Delete s v fuel = some (DelResult.errValueDoesNotExist, s) := by
  have hf : findNode s v fuel = some none := by
    unfold Exists at h
    cases hx : findNode s v fuel with
    | none => rw [hx] at h; exact Option.noConfusion h
    | some r =>
      rw [hx] at h
      have hr : r.isSome = false := by simpa using h
      cases r with
      | none => rfl
      | some a => simp at hr
  unfold Delete
  rw [hf]
  rfl

/-- Witness for claim C8 on the empty tree. -/
theorem claim8_delete_absent_notfound_unchanged_witness :
    Delete (NewRBTree Int) 0 5 = some (DelResult.errValueDoesNotExist, NewRBTree Int) :=
  claim8_delete_absent_notfound_unchanged (NewRBTree Int) 0 5 (by decide)

/-- bhChk only depends on the heap. -/
theorem bhChk_heapEq {T : Type} {s1 s2 : RBTree T} (he : s1.heap = s2.heap) :
    ∀ (f : Nat) (p : Option Nat), bhChk s1 f p = bhChk s2 f p := by
  intro f
  induction f with
  | zero => intro p; rfl
  | succ f ih =>
    intro p
    cases p with
    | none => rfl
    | some a =>
      show bhChk s1 (f + 1) (some a) = bhChk s2 (f + 1) (some a)
      unfold bhChk
      simp only [he, ih]

/-- colorOf only depends on the heap. -/
theorem colorOf_heapEq {T : Type} {s1 s2 : RBTree T} (he : s1.heap = s2.heap)
    (p : Option Nat) : colorOf s1 p = colorOf s2 p := by
  cases p with
  | none => rfl
  | some a => unfold colorOf; rw [he]

/-- findLoop only depends on the heap. -/
theorem findLoop_heapEq {T : Type} [LinearOrder T] {s1 s2 : RBTree T}
    (he : s1.heap = s2.heap) (v : T) :
    ∀ (f : Nat) (p : Option Nat), findLoop s1 v f p = findLoop s2 v f p := by
  intro f
  induction f with
  | zero => intro p; rfl
  | succ f ih =>
    intro p
    cases p with
    | none => rfl
    | some a =>
      show findLoop s1 v (f + 1) (some a) = findLoop s2 v (f + 1) (some a)
      unfold findLoop
      simp only [he, ih]

/-- A subtree position whose black-height check succeeds at some fuel. -/
def bhOk (s : RBTree T) (p : Option Nat) : Prop :=
  ∃ f h, bhChk s f p = some h

/-- Black-height checks of nil positions yield exactly 1. -/
theorem bhChk_none_eq_one {T : Type} {s : RBTree T} {f : Nat} {h : Nat}
    (hc : bhChk s f none = some h) : h = 1 := by
  cases f with
  | zero => exact Option.noConfusion hc
  | succ f => exact (Option.some_inj.mp hc).symm

/-- Destructor for a successful black-height check at a node. -/
theorem bhChk_node_elim {T : Type} {s : RBTree T} {f : Nat} {a : Nat}
    {n : Node T} {h : Nat} (hn : s.heap[a]? = some n)
    (hc : bhChk s (f + 1) (some a) = some h) :
    ∃ hl, bhChk s f n.left = some hl ∧ bhChk s f n.right = some hl
      ∧ h = (if n.clr = Color.black then hl + 1 else hl) := by
  unfold bhChk at hc
  rw [hn] at hc
  simp only [Option.bind_eq_some] at hc
  obtain ⟨hl, hcl, hr, hcr, hc⟩ := hc
  split at hc
  · rename_i heq
    exact ⟨hl, hcl, heq ▸ hcr, (Option.some_inj.mp hc).symm⟩
  · exact Option.noConfusion hc

/-- A successful black-height check yields at least 1. -/
theorem bhChk_ge_one {T : Type} {s : RBTree T} :
    ∀ {f : Nat} {p : Option Nat} {h : Nat}, bhChk s f p = some h → 1 ≤ h := by
  intro f
  induction f with
  | zero => intro p h hc; exact Option.noConfusion hc
  | succ f ih =>
    intro p h hc
    cases p with
    | none => rw [bhChk_none_eq_one hc]
    | some a =>
      cases hn : s.heap[a]? with
      | none => unfold bhChk at hc; rw [hn] at hc; exact Option.noConfusion hc
      | some n =>
        obtain ⟨hl, hcl, hcr, he⟩ := bhChk_node_elim hn hc
        have h1 := ih hcl
        split at he <;> omega

/-- A black node never checks with black-height 1. -/
theorem bhChk_black_ge_two {T : Type} {s : RBTree T} {f : Nat} {a : Nat}
    {n : Node T} {h : Nat} (hn : s.heap[a]? = some n) (hb : n.clr = Color.black)
    (hc : bhChk s f (some a) = some h) : 2 ≤ h := by
  cases f with
  | zero => exact Option.noConfusion hc
  | succ f =>
    obtain ⟨hl, hcl, hcr, he⟩ := bhChk_node_elim hn hc
    have h1 := bhChk_ge_one hcl
    rw [hb] at he
    simp at he
    omega

/-- Invariant 6 at a node with an absent left child: because of equal
black-height, the right child is absent or red. -/
theorem right_nil_or_red_of_left_nil {T : Type} {s : RBTree T} {a : Nat} {n : Node T}
    (hb : bhOk s (some a)) (hn : s.heap[a]? = some n) (hl : n.left = none) :
    n.right = none ∨ colorOf s n.right = Color.red := by
  obtain ⟨f, h, hc⟩ := hb
  cases f with
  | zero => exact Option.noConfusion hc
  | succ f =>
    obtain ⟨hl1, hcl, hcr, he⟩ := bhChk_node_elim hn hc
    rw [hl] at hcl
    obtain rfl := bhChk_none_eq_one hcl
    cases hr : n.right with
    | none => exact Or.inl rfl
    | some b =>
      rw [hr] at hcr
      refine Or.inr ?_
      cases f with
      | zero => exact Option.noConfusion hcr
      | succ f =>
        have hbx : ∃ nb, s.heap[b]? = some nb := by
          unfold bhChk at hcr
          cases hnb : s.heap[b]? with
          | none => rw [hnb] at hcr; exact Option.noConfusion hcr
          | some nb => exact ⟨nb, rfl⟩
        obtain ⟨nb, hnb⟩ := hbx
        cases hcb : nb.clr with
        | black =>
          have := bhChk_black_ge_two hnb hcb hcr
          omega
        | red =>
          simp [colorOf, hnb, hcb]

/-- Invariant 6 at a node with an absent right child: the left child is
absent or red. -/
theorem left_nil_or_red_of_right_nil {T : Type} {s : RBTree T} {a : Nat} {n : Node T}
    (hb : bhOk s (some a)) (hn : s.heap[a]? = some n) (hr : n.right = none) :
    n.left = none ∨ colorOf s n.left = Color.red := by
  obtain ⟨f, h, hc⟩ := hb
  cases f with
  | zero => exact Option.noConfusion hc
  | succ f =>
    obtain ⟨hl1, hcl, hcr, he⟩ := bhChk_node_elim hn hc
    rw [hr] at hcr
    obtain rfl := bhChk_none_eq_one hcr
    cases hl : n.left with
    | none => exact Or.inl rfl
    | some b =>
      rw [hl] at hcl
      refine Or.inr ?_
      cases f with
      | zero => exact Option.noConfusion hcl
      | succ f =>
        have hbx : ∃ nb, s.heap[b]? = some nb := by
          unfold bhChk at hcl
          cases hnb : s.heap[b]? with
          | none => rw [hnb] at hcl; exact Option.noConfusion hcl
          | some nb => exact ⟨nb, rfl⟩
        obtain ⟨nb, hnb⟩ := hbx
        cases hcb : nb.clr with
        | black =>
          have := bhChk_black_ge_two hnb hcb hcl
          omega
        | red =>
          simp [colorOf, hnb, hcb]

/-- bhOk descends to both children. -/
theorem bhOk_children {T : Type} {s : RBTree T} {a : Nat} {n : Node T}
    (hb : bhOk s (some a)) (hn : s.heap[a]? = some n) :
    bhOk s n.left ∧ bhOk s n.right := by
  obtain ⟨f, h, hc⟩ := hb
  cases f with
  | zero => exact absurd hc (by simp [bhChk])
  | succ f =>
    obtain ⟨hl, hcl, hcr, _⟩ := bhChk_node_elim hn hc
    exact ⟨⟨f, hl, hcl⟩, ⟨f, hl, hcr⟩⟩

/-- A node inside a black-height-consistent subtree is not its own right child. -/
theorem bhChk_no_self_right {T : Type} {s : RBTree T} :
    ∀ (f : Nat) {a : Nat} {n : Node T} {h : Nat}, bhChk s f (some a) = some h →
      s.heap[a]? = some n → n.right ≠ some a := by
  intro f
  induction f with
  | zero => intro a n h hc _; exact absurd hc (by simp [bhChk])
  | succ f ih =>
    intro a n h hc hn hcontra
    obtain ⟨hl, hcl, hcr, _⟩ := bhChk_node_elim hn hc
    rw [hcontra] at hcr
    exact ih hcr hn hcontra

/-- findLoop only returns nodes whose subtree passes the black-height check,
provided its start position does. -/
theorem findLoop_bhOk {T : Type} [LinearOrder T] {s : RBTree T} {v : T} :
    ∀ (f : Nat) (p : Option Nat) {nd : Nat}, findLoop s v f p = some (some nd) →
      bhOk s p → bhOk s (some nd) := by
  intro f
  induction f with
  | zero => intro p nd hf; exact absurd hf (by simp [findLoop])
  | succ f ih =>
    intro p nd hf hb
    cases p with
    | none => simp [findLoop] at hf
    | some a =>
      unfold findLoop at hf
      cases hn : s.heap[a]? with
      | none => rw [hn] at hf; exact Option.noConfusion hf
      | some n =>
        rw [hn] at hf
        simp only [Option.some_bind] at hf
        have hch := bhOk_children hb hn
        split at hf
        · obtain rfl : a = nd := by simpa using hf
          exact hb
        · split at hf
          · exact ih _ hf hch.2
          · exact ih _ hf hch.1

/-- getMin lands on a node with an absent left child, within a
black-height-consistent subtree. -/
theorem getMin_left_nil {T : Type} {s : RBTree T} :
    ∀ (f : Nat) (a : Nat) {m : Nat}, getMin s f a = some m → bhOk s (some a) →
      bhOk s (some m) ∧ ∃ mn, s.heap[m]? = some mn ∧ mn.left = none := by
  intro f
  induction f with
  | zero => intro a m hg; exact absurd hg (by simp [getMin])
  | succ f ih =>
    intro a m hg hb
    unfold getMin at hg
    cases hn : s.heap[a]? with
    | none => rw [hn] at hg; exact Option.noConfusion hg
    | some n =>
      rw [hn] at hg
      simp only [Option.some_bind] at hg
      cases hl : n.left with
      | none =>
        rw [hl] at hg
        obtain rfl : a = m := by simpa using hg
        exact ⟨hb, n, hn, hl⟩
      | some l =>
        rw [hl] at hg
        have hchild : bhOk s (some l) := by
          have := (bhOk_children hb hn).1
          rw [hl] at this
          exact this
        exact ih _ hg hchild

/-- setClr at one address leaves colors elsewhere unchanged. -/
theorem clrAt_setClr_ne {T : Type} {s s2 : RBTree T} {a b : Nat} {c : Color}
    (hne : b ≠ a) (h : setClr s (some a) c = some s2) : clrAt s2 b = clrAt s b := by
  simp only [setClr, Option.bind_eq_some] at h
  obtain ⟨n, hn, h⟩ := h
  obtain rfl := Option.some_inj.mp h
  unfold clrAt setN
  simp [List.getElem?_set_ne (Ne.symm hne)]

/-- Equal stored colors give equal colorOf. -/
theorem colorOf_congr {T : Type} {s1 s2 : RBTree T} {b : Nat}
    (h : clrAt s1 b = clrAt s2 b) : colorOf s1 (some b) = colorOf s2 (some b) := by
  unfold clrAt at h
  cases h1 : s1.heap[b]? with
  | none =>
    rw [h1] at h
    cases h2 : s2.heap[b]? with
    | none => simp [colorOf, h1, h2]
    | some m => rw [h2] at h; simp at h
  | some n =>
    rw [h1] at h
    cases h2 : s2.heap[b]? with
    | none => rw [h2] at h; simp at h
    | some m =>
      rw [h2] at h
      have hcc : n.clr = m.clr := by simpa using h
      simp [colorOf, h1, h2, hcc]

/-- The fixDelete loop performs no iteration when its input node is red. -/
theorem fixDeleteLoop_red_exit {T : Type} {s : RBTree T} {x : Option Nat} (f : Nat)
    (h : colorOf s x = Color.red) : fixDeleteLoop (f + 1) s x = some s := by
  unfold fixDeleteLoop
  by_cases hr : x = s.root
  · simp [hr]
  · simp [hr, h]

/-- The fixDelete loop on a nil input node with a nonempty tree panics at
the dereference of the nil node, before any sibling is computed. -/
theorem fixDeleteLoop_nil_nonempty_panics {T : Type} {s : RBTree T} (f : Nat)
    (h : s.root ≠ none) : fixDeleteLoop (f + 1) s none = none := by
  unfold fixDeleteLoop
  have hne : (none : Option Nat) ≠ s.root := fun hh => h hh.symm
  simp [hne, colorOf, getN]

/-- The fixDelete loop on a nil input node with an empty tree exits at once
(the subsequent unconditional root blackening in fixDelete then panics). -/
theorem fixDeleteLoop_nil_emptyroot_exit {T : Type} {s : RBTree T} (f : Nat)
    (h : s.root = none) : fixDeleteLoop (f + 1) s none = some s := by
  unfold fixDeleteLoop
  simp [h]


/-- Claim C4.  From any tree passing the red-black validity check, deleting
a present value hands fixDelete a node that is absent or red (the
invariant-6 argument: the spliced position had an absent left child, so
equal black-height forces its right child to be absent or red, and the
splice itself recolors only the substitute node).  Consequently the
delete-fixup loop never reaches the sibling-children reads at all: on a
red input node the loop exits before any iteration, and on a nil input
node the body panics dereferencing the nil current node (nd.parent)
before any sibling is computed (or exits at once when the tree became
empty) — so no execution reachable from a valid tree by deleting a
present value ever reads the children of an absent sibling. -/
theorem claim4_delete_fixup_never_reads_absent_sibling {T : Type} [LinearOrder T]
    (s : RBTree T) (v : T) (fv fuel f2 : Nat) (nd : Nat)
    (spl : Color × Option Nat × RBTree T)
    (hval : validRB s fv = true)
    (hfind : findNode s v fuel = some (some nd))
    (hspl : deleteSplice { s with len := s.len - 1 } nd f2 = some spl) :
    (spl.2.1 = none ∨ colorOf spl.2.2 spl.2.1 = Color.red)
    ∧ (∀ f, colorOf spl.2.2 spl.2.1 = Color.red →
        fixDeleteLoop (f + 1) spl.2.2 spl.2.1 = some spl.2.2)
    ∧ (∀ f, spl.2.1 = none → spl.2.2.root ≠ none →
        fixDeleteLoop (f + 1) spl.2.2 spl.2.1 = none)
    ∧ (∀ f, spl.2.1 = none → spl.2.2.root = none →
        fixDeleteLoop (f + 1) spl.2.2 spl.2.1 = some spl.2.2) := by
  set s0 : RBTree T := { s with len := s.len - 1 } with hs0
  have hmain : spl.2.1 = none ∨ colorOf spl.2.2 spl.2.1 = Color.red := by
    have hbh : bhOk s0 s0.root := by
      have h3 : (bhChk s fv s.root).isSome = true := by
        simp only [validRB, Bool.and_eq_true] at hval
        exact hval.2
      obtain ⟨h, hc⟩ := Option.isSome_iff_exists.mp h3
      exact ⟨fv, h, (@bhChk_heapEq T s0 s rfl fv s.root).trans hc⟩
    have hfind0 : findLoop s0 v fuel s0.root = some (some nd) := by
      rw [@findLoop_heapEq T _ s0 s rfl v fuel s0.root]
      exact hfind
    have hbnd : bhOk s0 (some nd) := findLoop_bhOk fuel s0.root hfind0 hbh
    unfold deleteSplice at hspl
    rw [Option.bind_eq_some] at hspl
    obtain ⟨n, hn, hspl⟩ := hspl
    by_cases hleft : n.left = none
    · rw [if_pos hleft] at hspl
      simp only [Option.bind_eq_some] at hspl
      obtain ⟨s1, hrep, heq⟩ := hspl
      obtain rfl := Option.some_inj.mp heq
      show n.right = none ∨ colorOf s1 n.right = Color.red
      rcases right_nil_or_red_of_left_nil hbnd hn hleft with hnone | hred
      · exact Or.inl hnone
      · cases hrb : n.right with
        | none => exact Or.inl rfl
        | some b =>
          rw [hrb] at hred
          exact Or.inr ((colorOf_congr (clrAt_replace hrep b)).trans hred)
    · rw [if_neg hleft] at hspl
      by_cases hright : n.right = none
      · rw [if_pos hright] at hspl
        simp only [Option.bind_eq_some] at hspl
        obtain ⟨s1, hrep, heq⟩ := hspl
        obtain rfl := Option.some_inj.mp heq
        show n.left = none ∨ colorOf s1 n.left = Color.red
        rcases left_nil_or_red_of_right_nil hbnd hn hright with hnone | hred
        · exact Or.inl hnone
        · cases hlb : n.left with
          | none => exact Or.inl rfl
          | some b =>
            rw [hlb] at hred
            exact Or.inr ((colorOf_congr (clrAt_replace hrep b)).trans hred)
      · rw [if_neg hright] at hspl
        simp only [Option.bind_eq_some] at hspl
        obtain ⟨ndr, hndr, sub, hgm, subn, hsubn, s2, hs2, s3, hs3, n3, hn3,
          s4, hs4, sn4, hsn4, s5, hs5, n5, hn5, s6, hs6, heq⟩ := hspl
        obtain rfl := Option.some_inj.mp heq
        show subn.right = none ∨ colorOf s6 subn.right = Color.red
        have hbndr : bhOk s0 (some ndr) := by
          have hx := (bhOk_children hbnd hn).2
          rw [hndr] at hx
          exact hx
        obtain ⟨hbsub, mn, hmn, hmnl⟩ := getMin_left_nil f2 ndr hgm hbndr
        rw [hsubn] at hmn
        obtain rfl := Option.some_inj.mp hmn
        rcases right_nil_or_red_of_left_nil hbsub hsubn hmnl with hnone | hred
        · exact Or.inl hnone
        · cases hrb : subn.right with
          | none => exact Or.inl rfl
          | some b =>
            rw [hrb] at hred
            refine Or.inr ?_
            have hbne : b ≠ sub := by
              intro hcontra
              obtain ⟨g, hh, hcg⟩ := hbsub
              exact bhChk_no_self_right g hcg hsubn (by rw [hrb, hcontra])
            have e2 : clrAt s2 b = clrAt s0 b := by
              split at hs2
              · simp only [Option.bind_eq_some] at hs2
                obtain ⟨sx1, hx1, nx1, hnx1, sxa, hxa, snx2, hsnx2, hx2⟩ := hs2
                rw [clrAt_setParent hx2 b, clrAt_setRight hxa b, clrAt_replace hx1 b]
              · obtain rfl := Option.some_inj.mp hs2
                rfl
            have e3 : clrAt s3 b = clrAt s2 b := clrAt_replace hs3 b
            have e4 : clrAt s4 b = clrAt s3 b := clrAt_setLeft hs4 b
            have e5 : clrAt s5 b = clrAt s4 b := by
              split at hs5
              · obtain rfl := Option.some_inj.mp hs5
                rfl
              · exact clrAt_setParent hs5 b
            have e6 : clrAt s6 b = clrAt s5 b := clrAt_setClr_ne hbne hs6
            have echain : clrAt s6 b = clrAt s0 b := by rw [e6, e5, e4, e3, e2]
            exact (colorOf_congr echain).trans hred
  refine ⟨hmain, ?_, ?_, ?_⟩
  · intro f hred
    exact fixDeleteLoop_red_exit f hred
  · intro f hnil hroot
    rw [hnil]
    exact fixDeleteLoop_nil_nonempty_panics f hroot
  · intro f hnil hroot
    rw [hnil]
    exact fixDeleteLoop_nil_emptyroot_exit f hroot

/-- Witness for claim C4: the valid four-node tree built by inserting
1, 2, 3, 4, deleting the present value 1 (the black leaf at address 0). -/
theorem claim4_delete_fixup_never_reads_absent_sibling_witness :
    (((Color.black, (none : Option Nat),
      (⟨[⟨none, none, some 1, Color.black, 1⟩, ⟨none, some 2, none, Color.black, 2⟩,
         ⟨none, some 3, some 1, Color.black, 3⟩, ⟨none, none, some 2, Color.red, 4⟩],
        some 1, 3⟩ : RBTree Int)) : Color × Option Nat × RBTree Int).2.1 = none)
    ∨ colorOf ((Color.black, (none : Option Nat),
      (⟨[⟨none, none, some 1, Color.black, 1⟩, ⟨none, some 2, none, Color.black, 2⟩,
         ⟨none, some 3, some 1, Color.black, 3⟩, ⟨none, none, some 2, Color.red, 4⟩],
        some 1, 3⟩ : RBTree Int)) : Color × Option Nat × RBTree Int).2.2
      ((Color.black, (none : Option Nat),
      (⟨[⟨none, none, some 1, Color.black, 1⟩, ⟨none, some 2, none, Color.black, 2⟩,
         ⟨none, some 3, some 1, Color.black, 3⟩, ⟨none, none, some 2, Color.red, 4⟩],
        some 1, 3⟩ : RBTree Int)) : Color × Option Nat × RBTree Int).2.1 = Color.red :=
  (claim4_delete_fixup_never_reads_absent_sibling
    (⟨[⟨none, none, some 1, Color.black, 1⟩, ⟨some 0, some 2, none, Color.black, 2⟩,
       ⟨none, some 3, some 1, Color.black, 3⟩, ⟨none, none, some 2, Color.red, 4⟩],
      some 1, 4⟩ : RBTree Int) 1 20 20 20 0
    (Color.black, none,
      (⟨[⟨none, none, some 1, Color.black, 1⟩, ⟨none, some 2, none, Color.black, 2⟩,
         ⟨none, some 3, some 1, Color.black, 3⟩, ⟨none, none, some 2, Color.red, 4⟩],
        some 1, 3⟩ : RBTree Int))
    (by decide) (by decide) (by decide)).1
